import Mathlib

/-!
Verification of the task-lifecycle orchestrator described by this
repository's design document, together with two executable scripts that
ship with the repository (`find_review_comments.sh` and
`scripts/mcp-test.ts`).

The repository itself is a documentation and prompt-template bundle: the
orchestrator (TaskRecord store, Stage Machine, Iteration Manager,
Review-Fix Cycle Controller, Orchestrator Facade) is described by the
design document but its executable form (the `stage.yaml` workflow state
edited by the `.claude` shell scripts) is not part of the source tree
here, so those components are modelled from the design document.  The two
scripts are translated directly from their sources.
-/

namespace TaskFlow

/-- Modelled from the spec: the `Stage` enum of §4.1 of the design
document (the orchestrator implementation is not in the source tree).
States: `task_created, planning, decompose, implementation_iteration,
review, review_fix, done`. -/
inductive Stage where
  | task_created
  | planning
  | decompose
  | implementation_iteration
  | review
  | review_fix
  | done
deriving DecidableEq, Repr

/-- Modelled from the spec: the planner hint (`implement` vs `decompose`)
carried by the `plan_completed` event. -/
inductive PlanHint where
  | implement
  | decompose
deriving DecidableEq, Repr

/-- Modelled from the spec: the decision carried by the `review_decided`
event. -/
inductive ReviewDecision where
  | approved
  | requires_fixes
deriving DecidableEq, Repr

/-- Modelled from the spec: the outcome events of the transition table of
§4.1.  `iterations_defined` carries the list of iteration descriptions,
`iteration_completed` carries the free-text summary. -/
inductive Event where
  | plan_requested
  | plan_completed (hint : PlanHint)
  | iterations_defined (descriptions : List String)
  | iteration_completed (summary : String)
  | review_decided (decision : ReviewDecision)
  | fixes_applied
deriving DecidableEq, Repr

/-- Modelled from the spec: iteration status `planned | in_progress | done`. -/
inductive IterStatus where
  | planned
  | in_progress
  | done
deriving DecidableEq, Repr

/-- Modelled from the spec: an IterationRecord (§3): 1-based `index`,
`status`, opaque free-text `summary`. -/
structure IterationRecord where
  index : Nat
  status : IterStatus
  summary : String
deriving DecidableEq, Repr

/-- Modelled from the spec: the last review decision recorded in the
review-cycle state (`none | approved | requires_fixes`). -/
inductive LastDecision where
  | none
  | approved
  | requires_fixes
deriving DecidableEq, Repr

/-- Modelled from the spec: ReviewCycleState (§3): `round` starts at 0;
`maxRounds` is an optional ceiling (`Option.none` models the default
unbounded configuration); `lastDecision`. -/
structure ReviewCycleState where
  round : Nat
  maxRounds : Option Nat
  lastDecision : LastDecision
deriving DecidableEq, Repr

/-- Modelled from the spec: errors of the facade's taxonomy (§7):
`NotFound`, `InvalidTransition` (carrying the offending (state, event)
pair), `ConcurrentModification` (carrying expected and stored versions),
`CycleExhausted`, `ValidationError`, `StoreIOError`. -/
inductive WorkflowError where
  | notFound (taskId : String)
  | invalidTransition (stage : Stage) (event : Event)
  | concurrentModification (expected stored : Nat)
  | cycleExhausted
  | validationError (msg : String)
  | storeIOError
deriving DecidableEq, Repr

/-- Modelled from the spec: a TaskRecord (§3).  Timestamps are abstract
clock readings (naturals). -/
structure TaskRecord where
  taskId : String
  stage : Stage
  nextStageHint : Option PlanHint
  branchName : String
  iterations : List IterationRecord
  reviewCycle : ReviewCycleState
  createdAt : Nat
  updatedAt : Nat
  version : Nat
deriving DecidableEq, Repr

/-- Modelled from the spec: building the iteration list from a list of
descriptions, with 1-based indices, all records `planned` (§4.2,
`defineIterations`). -/
def mkIterations (start : Nat) : List String → List IterationRecord
  | [] => []
  | d :: ds => ⟨start, .planned, d⟩ :: mkIterations (start + 1) ds

/-- Number of iteration records that are not yet `done` ("planned
iterations remaining" in the guards of §4.1). -/
def pendingCount : List IterationRecord → Nat
  | [] => 0
  | it :: its => (if it.status = .done then 0 else 1) + pendingCount its

/-- Modelled from the spec: marking the first not-yet-`done` iteration
record as `done`, storing the completion summary (§4.2,
`completeCurrent`). -/
def completeFirst : List IterationRecord → String → List IterationRecord
  | [], _ => []
  | it :: its, s =>
      if it.status = .done then it :: completeFirst its s
      else { it with status := .done, summary := s } :: its

/-- Modelled from the spec: the guard `reviewCycle.round < maxRounds` of
§4.1; an absent ceiling means unbounded. -/
def roundOk (c : ReviewCycleState) : Bool :=
  match c.maxRounds with
  | Option.none => true
  | Option.some m => c.round < m

/-- Modelled from the spec: the pure transition function of the Stage
Machine (§4.1) together with the iteration-manager and review-cycle side
effects the facade applies for each event (§4.4).  Row by row of the
transition table:
* `task_created --plan_requested--> planning`;
* `planning --plan_completed(implement)--> implementation_iteration`,
  auto-creating exactly one iteration and consuming the hint;
* `planning --plan_completed(decompose)--> decompose`, consuming the hint;
* `decompose --iterations_defined(list)--> implementation_iteration`,
  guarded by the list being non-empty (`ValidationError` otherwise) and by
  no prior definition (§4.2: `defineIterations` fails if `iterations` is
  already non-empty);
* `implementation_iteration --iteration_completed--> implementation_iteration`
  while planned iterations remain, else `--> review`;
* `review --review_decided(approved)--> done`;
* `review --review_decided(requires_fixes)--> review_fix` guarded by
  `round < maxRounds`, else `CycleExhausted`; the round is not yet
  incremented (§4.3);
* `review_fix --fixes_applied--> review`, incrementing `reviewCycle.round`.
Any other (stage, event) pair is rejected with `InvalidTransition`
carrying that pair. -/
def transition (r : TaskRecord) (e : Event) : Except WorkflowError TaskRecord :=
  match r.stage, e with
  | .task_created, .plan_requested => .ok { r with stage := .planning }
  | .planning, .plan_completed .implement =>
      .ok { r with stage := .implementation_iteration,
                   nextStageHint := Option.none,
                   iterations := [⟨1, .planned, ""⟩] }
  | .planning, .plan_completed .decompose =>
      .ok { r with stage := .decompose, nextStageHint := Option.none }
  | .decompose, .iterations_defined descs =>
      if descs.isEmpty then .error (.validationError "empty iteration list")
      else if r.iterations.isEmpty then
        .ok { r with stage := .implementation_iteration,
                     iterations := mkIterations 1 descs }
      else .error (.validationError "iterations already defined")
  | .implementation_iteration, .iteration_completed s =>
      if 0 < pendingCount (completeFirst r.iterations s) then
        .ok { r with iterations := completeFirst r.iterations s }
      else .ok { r with stage := .review, iterations := completeFirst r.iterations s }
  | .review, .review_decided .approved =>
      .ok { r with stage := .done,
                   reviewCycle := { r.reviewCycle with lastDecision := .approved } }
  | .review, .review_decided .requires_fixes =>
      if roundOk r.reviewCycle then
        .ok { r with stage := .review_fix,
                     reviewCycle := { r.reviewCycle with lastDecision := .requires_fixes } }
      else .error .cycleExhausted
  | .review_fix, .fixes_applied =>
      .ok { r with stage := .review,
                   reviewCycle := { r.reviewCycle with round := r.reviewCycle.round + 1 } }
  | s, ev => .error (.invalidTransition s ev)

/-- Which (stage, event) pairs match a row of the transition table of
§4.1 (irrespective of guards).  Used to state the rejection rule: pairs
matching no row are rejected with `InvalidTransition`. -/
def matchesRow (s : Stage) (e : Event) : Bool :=
  match s, e with
  | .task_created, .plan_requested => true
  | .planning, .plan_completed _ => true
  | .decompose, .iterations_defined _ => true
  | .implementation_iteration, .iteration_completed _ => true
  | .review, .review_decided _ => true
  | .review_fix, .fixes_applied => true
  | _, _ => false

/-- The edges (current stage, event, next stage) listed in the transition
table of §4.1.  Used to state that `stage` only moves along table
edges. -/
def isTableEdge (s : Stage) (e : Event) (s' : Stage) : Bool :=
  match s, e, s' with
  | .task_created, .plan_requested, .planning => true
  | .planning, .plan_completed .implement, .implementation_iteration => true
  | .planning, .plan_completed .decompose, .decompose => true
  | .decompose, .iterations_defined _, .implementation_iteration => true
  | .implementation_iteration, .iteration_completed _, .implementation_iteration => true
  | .implementation_iteration, .iteration_completed _, .review => true
  | .review, .review_decided .approved, .done => true
  | .review, .review_decided .requires_fixes, .review_fix => true
  | .review_fix, .fixes_applied, .review => true
  | _, _, _ => false

/-- Modelled from the spec: the TaskRecord Store (§2, §6) — one durable
record per `taskId`, as an association list keyed by task id. -/
abbrev Store := List (String × TaskRecord)

/-- Look up the record stored for a task id. -/
def Store.get (st : Store) (id : String) : Option TaskRecord :=
  match st with
  | [] => Option.none
  | (k, v) :: rest => if k = id then Option.some v else Store.get rest id

/-- Replace (or insert) the record stored for a task id. -/
def Store.put (st : Store) (id : String) (r : TaskRecord) : Store :=
  match st with
  | [] => [(id, r)]
  | (k, v) :: rest => if k = id then (id, r) :: rest else (k, v) :: Store.put rest id r

/-- Modelled from the spec: the record fabricated at task initialization
(§3, §6): stage `task_created`, no iterations, review round 0, unbounded
`maxRounds`, `version` 1 (creation is the first persisted write). -/
def initialRecord (id branch : String) (now : Nat) : TaskRecord :=
  { taskId := id
    stage := .task_created
    nextStageHint := Option.none
    branchName := branch
    iterations := []
    reviewCycle := { round := 0, maxRounds := Option.none, lastDecision := .none }
    createdAt := now
    updatedAt := now
    version := 1 }

/-- Modelled from the spec: `create(taskId, branchName)` (§6); creation
is the only operation that may fabricate a `taskId`, and exactly one
record exists per id. -/
def create (st : Store) (id branch : String) (now : Nat) :
    Except WorkflowError TaskRecord × Store :=
  match Store.get st id with
  | Option.some _ => (.error (.validationError "taskId already exists"), st)
  | Option.none =>
      let r := initialRecord id branch now
      (.ok r, Store.put st id r)

/-- Modelled from the spec: the Orchestrator Facade's
`advance(taskId, event, payload, expectedVersion)` (§4.4): load the
record (`NotFound` if absent), verify `expectedVersion`
(`ConcurrentModification` otherwise), run the pure transition, build the
new record with `version + 1` and refreshed `updatedAt`, persist
atomically and return it.  The boolean `writeOk` is the outcome of the
atomic store write: when it fails the facade returns `StoreIOError` and
the store is left exactly as it was (§5, §7). -/
def advance (st : Store) (id : String) (e : Event) (expectedVersion now : Nat)
    (writeOk : Bool) : Except WorkflowError TaskRecord × Store :=
  match Store.get st id with
  | Option.none => (.error (.notFound id), st)
  | Option.some r =>
      if r.version = expectedVersion then
        match transition r e with
        | .error err => (.error err, st)
        | .ok r0 =>
            let r1 := { r0 with version := r.version + 1, updatedAt := now }
            if writeOk then (.ok r1, Store.put st id r1)
            else (.error .storeIOError, st)
      else (.error (.concurrentModification expectedVersion r.version), st)

/-- Run a list of events through `transition`, stopping at the first
error (the pure part of repeated `advance` calls). -/
def runPure (r : TaskRecord) : List Event → Except WorkflowError TaskRecord
  | [] => .ok r
  | e :: es =>
      match transition r e with
      | .ok r' => runPure r' es
      | .error err => .error err

/-- A driver loop over the facade: for each event, read the stored
record and call `advance` presenting the version just read (all writes
succeeding), returning the finally stored record. -/
def drive (st : Store) (id : String) (now : Nat) :
    List Event → Except WorkflowError TaskRecord
  | [] =>
      match Store.get st id with
      | Option.some r => .ok r
      | Option.none => .error (.notFound id)
  | e :: es =>
      match Store.get st id with
      | Option.none => .error (.notFound id)
      | Option.some r =>
          match advance st id e r.version now true with
          | (.ok _, st') => drive st' id now es
          | (.error err, _) => .error err

/-!  Embedding of `.claude/scripts/find_review_comments.sh` (shipped in
the repository README bundle).  The script picks search directories from
the existence of `src`, `tests` and `test` (falling back to `.`), greps
the included extensions for `//\s*Review:` with line numbers, strips
each hit down to the comment text with `sed`, prints
`filename:line:comment`, and finishes with an unconditional `exit 0`. -/

/-- A source file visible to the script: its path as grep prints it, the
top-level directory it lives under, its extension, and its lines. -/
structure SourceFile where
  path : String
  dir : String
  ext : String
  lines : List String
deriving DecidableEq, Repr

/-- The directory layout the script runs against. -/
structure RepoLayout where
  hasSrcDir : Bool
  hasTestsDir : Bool
  hasTestDir : Bool
  files : List SourceFile
deriving DecidableEq, Repr

/-- The `--include` extension filters of the grep invocation. -/
def grepIncludeExts : List String :=
  ["ts", "tsx", "js", "jsx", "py", "go", "rs", "java", "cpp", "c", "h", "hpp"]

/-- `SEARCH_DIRS` computation: `src`, `tests`, `test` when present,
falling back to `.` when none exist. -/
def searchDirs (repo : RepoLayout) : List String :=
  let ds := (if repo.hasSrcDir then ["src"] else [])
    ++ (if repo.hasTestsDir then ["tests"] else [])
    ++ (if repo.hasTestDir then ["test"] else [])
  if ds.isEmpty then ["."] else ds

/-- Whether a file falls under the searched directories (`.` searches
everything below the current directory). -/
def inSearchScope (dirs : List String) (f : SourceFile) : Bool :=
  dirs.contains "." || dirs.contains f.dir

/-- Whitespace as matched by grep's `\s` on these single-line inputs. -/
def isWsChar (c : Char) : Bool := c = ' ' || c = '\t'

/-- The literal `Review:` the pattern requires after `//` and optional
whitespace. -/
def reviewKeyChars : List Char := ['R', 'e', 'v', 'i', 'e', 'w', ':']

/-- Does the character list begin with `//`, optional whitespace, then
`Review:` (the pattern `//\s*Review:` anchored at the head)? -/
def startsReview : List Char → Bool
  | '/' :: '/' :: rest => (rest.dropWhile isWsChar).take 7 = reviewKeyChars
  | _ => false

/-- grep's per-line test: does `//\s*Review:` occur anywhere in the
line? -/
def hasReviewAt : List Char → Bool
  | [] => false
  | c :: rest => startsReview (c :: rest) || hasReviewAt rest

/-- The text after one occurrence of `//`, optional whitespace,
`Review:`, optional whitespace, when the list starts with that shape. -/
def stripHere : List Char → List Char
  | '/' :: '/' :: rest => ((rest.dropWhile isWsChar).drop 7).dropWhile isWsChar
  | cs => cs

/-- The `sed 's/.*\/\/\s*Review:\s*//'` substitution: greedy `.*` strips
everything up to and including the LAST occurrence of the pattern;
a line without the pattern passes through unchanged. -/
def sedStripReview : List Char → Option (List Char)
  | [] => Option.none
  | c :: rest =>
      match sedStripReview rest with
      | Option.some s => Option.some s
      | Option.none =>
          if startsReview (c :: rest) then Option.some (stripHere (c :: rest))
          else Option.none

/-- Number the lines of a file the way grep's `-n` does (1-based). -/
def numberLines (n : Nat) : List String → List (Nat × String)
  | [] => []
  | l :: ls => (n, l) :: numberLines (n + 1) ls

/-- The lines of one file that grep selects. -/
def matchedLinesIn (f : SourceFile) : List (Nat × String) :=
  (numberLines 1 f.lines).filter (fun p => hasReviewAt p.2.toList)

/-- All grep hits over the searched layout, as (file, line number, line
content) triples. -/
def grepMatches (repo : RepoLayout) : List (SourceFile × Nat × String) :=
  let dirs := searchDirs repo
  (repo.files.filter (fun f => inSearchScope dirs f && grepIncludeExts.contains f.ext)).flatMap
    (fun f => (matchedLinesIn f).map (fun p => (f, p)))

/-- grep's own exit status: 0 when at least one line was selected, 1
when none was.  The script discards this status (the pipeline into the
`while` loop, then the final `exit 0`). -/
def grepExitCode (repo : RepoLayout) : Nat :=
  if grepMatches repo = [] then 1 else 0

/-- One output line of the `while` loop: `filename:line:comment` with the
comment extracted by the sed substitution. -/
def formatMatch (t : SourceFile × Nat × String) : String :=
  let comment :=
    match sedStripReview t.2.2.toList with
    | Option.some s => String.mk s
    | Option.none => t.2.2
  t.1.path ++ ":" ++ toString t.2.1 ++ ":" ++ comment

/-- The whole script run: its stdout lines and its exit status.  The
exit status is the script's final unconditional `exit 0`. -/
def findReviewCommentsRun (repo : RepoLayout) : List String × Nat :=
  ((grepMatches repo).map formatMatch, 0)

/-- A layout with no directories and no files (so grep selects nothing
and reports status 1). -/
def emptyRepoLayout : RepoLayout :=
  { hasSrcDir := false, hasTestsDir := false, hasTestDir := false, files := [] }

/-!  Embedding of `src/scripts/mcp-test.ts` (`main`), up to the point
where the server process is spawned and the MCP client connected.  The
model covers the deterministic prefix of `main`: argument defaulting,
path resolution, the `existsSync` check with `process.exit(1)`, and —
when the file exists — the spawn and connect actions.  Everything after
the connect (tool listing, tool call, response parsing) is asynchronous
protocol interaction and is not modelled. -/

/-- The observable actions of the test client's `main`. -/
inductive ClientAction where
  | logInfo (msg : String)
  | logError (msg : String)
  | exitProcess (code : Nat)
  | spawnServer (command : String) (args : List String)
  | connectClient
deriving DecidableEq, Repr

/-- The environment `main` reads: `process.argv[2]`, `process.cwd()`,
the directory of the script itself (`__dirname`), and which paths
`existsSync` reports as existing. -/
structure ClientWorld where
  argvEnvPath : Option String
  cwd : String
  scriptDir : String
  existingPaths : List String
deriving DecidableEq, Repr

/-- `path.isAbsolute` for POSIX paths: begins with `/`. -/
def pathIsAbsolute (p : String) : Bool :=
  match p.toList with
  | '/' :: _ => true
  | _ => false

/-- `path.join` of two segments (modelled as separator concatenation). -/
def pathJoin (a b : String) : String := a ++ "/" ++ b

/-- `process.argv[2] || ".env"`: JavaScript `||` also replaces the empty
string (falsy) by the default. -/
def envPathArg (w : ClientWorld) : String :=
  match w.argvEnvPath with
  | Option.none => ".env"
  | Option.some s => if s = "" then ".env" else s

/-- The resolved absolute env-file path: the argument itself when
absolute, else joined onto the working directory. -/
def resolveEnvPath (w : ClientWorld) : String :=
  let arg := envPathArg w
  if pathIsAbsolute arg then arg else pathJoin w.cwd arg

/-- The server entry point `path.join(__dirname, "..", "dist",
"index.js")`. -/
def serverPath (w : ClientWorld) : String :=
  pathJoin (pathJoin (pathJoin w.scriptDir "..") "dist") "index.js"

/-- The action trace of `main` up to (and including) connecting the MCP
client.  When the resolved env path does not exist, `main` logs the
error and exits with code 1 — before any spawn or connect. -/
def mcpTestMain (w : ClientWorld) : List ClientAction :=
  let envPath := resolveEnvPath w
  [ClientAction.logInfo "Starting MCP Client Test",
   ClientAction.logInfo ("Looking for env file: " ++ envPathArg w)]
  ++ (if w.existingPaths.contains envPath then
        [ClientAction.logInfo ("Server path: " ++ serverPath w),
         ClientAction.logInfo ("Env file: " ++ envPath),
         ClientAction.spawnServer "node" [serverPath w, envPath],
         ClientAction.logInfo "Connecting to MCP server...",
         ClientAction.connectClient]
      else
        [ClientAction.logError ("Error: .env file not found at: " ++ envPath),
         ClientAction.exitProcess 1])

/-!  Concrete fixtures used to instantiate the theorems below. -/

/-- A store holding exactly one freshly created task. -/
def oneTaskStore : Store := [("t", initialRecord "t" "b" 0)]

/-- A record that has just entered `implementation_iteration` with a
single planned iteration. -/
def implOneRecord : TaskRecord :=
  { initialRecord "t" "b" 0 with
      stage := .implementation_iteration
      iterations := mkIterations 1 ["only"] }

/-- A record parked in `review` with `round = 0` and `maxRounds = 2`. -/
def reviewRecord : TaskRecord :=
  { initialRecord "t" "b" 0 with
      stage := .review
      reviewCycle := { round := 0, maxRounds := Option.some 2, lastDecision := .none } }

/-- The record `transition` produces from `reviewRecord` on
`review_decided(requires_fixes)`. -/
def reviewFixRecord : TaskRecord :=
  { reviewRecord with
      stage := .review_fix
      reviewCycle := { reviewRecord.reviewCycle with lastDecision := .requires_fixes } }

/-- The record `transition` produces from `reviewFixRecord` on
`fixes_applied`. -/
def reviewBackRecord : TaskRecord :=
  { reviewFixRecord with
      stage := .review
      reviewCycle := { reviewFixRecord.reviewCycle with
                         round := reviewFixRecord.reviewCycle.round + 1 } }

/-- A store holding `reviewRecord`. -/
def reviewStore : Store := [("t", reviewRecord)]

/-- The event trace of end-to-end scenario A. -/
def scenarioAEvents : List Event :=
  [Event.plan_requested, Event.plan_completed .implement,
   Event.iteration_completed "iteration done", Event.review_decided .approved]

/-- The store right after `create(task-1, feature-1)`. -/
def scenarioAStore : Store := (create [] "task-1" "feature-1" 0).2

/-- A trace that reaches `implementation_iteration` without ever taking
the decompose path. -/
def noDecomposeTrace : List Event :=
  [Event.plan_requested, Event.plan_completed .implement]

/-- The record reached from a fresh task by `plan_requested` then
`plan_completed(implement)`. -/
def implAfterPlanRecord : TaskRecord :=
  { initialRecord "t" "b" 0 with
      stage := .implementation_iteration
      nextStageHint := Option.none
      iterations := [⟨1, .planned, ""⟩] }

/-- A world in which the requested env file does not exist. -/
def missingEnvWorld : ClientWorld :=
  { argvEnvPath := Option.some "missing.env"
    cwd := "/proj"
    scriptDir := "/proj/scripts"
    existingPaths := [] }

/-!  Helper lemmas. -/

theorem Store.get_put (st : Store) (id : String) (r : TaskRecord) :
    Store.get (Store.put st id r) id = Option.some r := by
  induction st with
  | nil => simp [Store.put, Store.get]
  | cons p rest ih =>
    by_cases h : p.1 = id
    · simp [Store.put, Store.get, h]
    · simp [Store.put, Store.get, h, ih]

/-- Every successful transition follows an edge of the §4.1 table. -/
theorem transition_ok_edge (r r' : TaskRecord) (e : Event)
    (h : transition r e = .ok r') : isTableEdge r.stage e r'.stage = true := by
  unfold transition at h
  split at h <;>
    first
    | (rw [← Except.ok.inj h]; simp [isTableEdge, *])
    | (split at h <;>
        first
        | (rw [← Except.ok.inj h]; simp [isTableEdge, *])
        | (split at h <;>
            first
            | (rw [← Except.ok.inj h]; simp [isTableEdge, *])
            | simp at h)
        | simp at h)
    | simp at h

/-- A (stage, event) pair matching no row of the table is rejected with
`InvalidTransition` carrying that pair. -/
theorem transition_no_row (r : TaskRecord) (e : Event)
    (h : matchesRow r.stage e = false) :
    transition r e = .error (.invalidTransition r.stage e) := by
  unfold transition
  split <;> simp_all [matchesRow]

theorem completeFirst_length (its : List IterationRecord) (s : String) :
    (completeFirst its s).length = its.length := by
  induction its with
  | nil => rfl
  | cons it rest ih => by_cases h : it.status = .done <;> simp [completeFirst, h, ih]

theorem pendingCount_completeFirst (its : List IterationRecord) (s : String)
    (h : 0 < pendingCount its) :
    pendingCount (completeFirst its s) = pendingCount its - 1 := by
  induction its with
  | nil => simp [pendingCount] at h
  | cons it rest ih =>
    by_cases hd : it.status = .done
    · simp only [completeFirst, if_pos hd, pendingCount, hd, if_true] at h ⊢
      simpa using ih (by simpa using h)
    · simp [completeFirst, hd, pendingCount]

theorem pendingCount_mkIterations (ds : List String) :
    ∀ start : Nat, pendingCount (mkIterations start ds) = ds.length := by
  induction ds with
  | nil => intro start; rfl
  | cons d ds ih =>
    intro start
    simp [mkIterations, pendingCount, ih, Nat.add_comm]

theorem runPure_append (l1 l2 : List Event) (r : TaskRecord) :
    runPure r (l1 ++ l2) =
      match runPure r l1 with
      | .ok r' => runPure r' l2
      | .error err => .error err := by
  induction l1 generalizing r with
  | nil => rfl
  | cons e es ih =>
    simp only [List.cons_append, runPure]
    cases transition r e <;> simp [ih]

/-- What a successful `advance` implies: the record existed, the
presented version matched, the pure transition succeeded, the write
succeeded, and the returned record is the transition result with
`version + 1` and refreshed `updatedAt`, persisted under the task id. -/
theorem advance_ok_elim (st : Store) (id : String) (e : Event) (ev now : Nat)
    (w : Bool) (r' : TaskRecord) (st' : Store)
    (h : advance st id e ev now w = (.ok r', st')) :
    ∃ r r0, Store.get st id = Option.some r ∧ r.version = ev ∧
      transition r e = .ok r0 ∧ w = true ∧
      r' = { r0 with version := r.version + 1, updatedAt := now } ∧
      st' = Store.put st id r' := by
  unfold advance at h
  cases hget : Store.get st id <;> simp only [hget] at h
  · simp at h
  · rename_i r
    by_cases hv : r.version = ev
    · rw [if_pos hv] at h
      cases ht : transition r e <;> simp only [ht] at h
      · simp at h
      · rename_i r0
        cases w
        · simp at h
        · simp only [if_true, Prod.mk.injEq, Except.ok.injEq] at h
          exact ⟨r, r0, rfl, hv, ht, rfl, h.1.symm, by rw [← h.2, h.1]⟩
    · rw [if_neg hv] at h
      simp at h

/-- Any `advance` that returns an error leaves the store exactly as it
was. -/
theorem advance_error_store (st : Store) (id : String) (e : Event) (ev now : Nat)
    (w : Bool) (err : WorkflowError)
    (h : (advance st id e ev now w).1 = .error err) :
    (advance st id e ev now w).2 = st := by
  unfold advance at h ⊢
  cases hget : Store.get st id
  · simp [hget]
  · rename_i r
    simp only [hget] at h ⊢
    by_cases hv : r.version = ev
    · rw [if_pos hv] at h ⊢
      cases ht : transition r e
      · simp [ht]
      · simp only [ht] at h ⊢
        cases w
        · rfl
        · simp at h
    · rw [if_neg hv]

/-- `advance` with a stale expected version is rejected with
`ConcurrentModification` and changes nothing. -/
theorem advance_stale (st : Store) (id : String) (e : Event) (ev now : Nat)
    (w : Bool) (r : TaskRecord) (hget : Store.get st id = Option.some r)
    (hv : ev ≠ r.version) :
    advance st id e ev now w = (.error (.concurrentModification ev r.version), st) := by
  unfold advance
  simp only [hget]
  rw [if_neg (fun hc => hv hc.symm)]

/-- `advance` propagates a transition error and changes nothing. -/
theorem advance_transition_error (st : Store) (id : String) (e : Event)
    (ev now : Nat) (w : Bool) (r : TaskRecord) (err : WorkflowError)
    (hget : Store.get st id = Option.some r) (hv : r.version = ev)
    (ht : transition r e = .error err) :
    advance st id e ev now w = (.error err, st) := by
  unfold advance
  simp only [hget]
  rw [if_pos hv]
  simp only [ht]

/-- A record in `implementation_iteration` with more pending iterations
than completion events stays in `implementation_iteration`, its pending
count reduced by one per event. -/
theorem runPending (ss : List String) :
    ∀ r : TaskRecord, r.stage = .implementation_iteration →
      ss.length < pendingCount r.iterations →
      ∃ r', runPure r (ss.map Event.iteration_completed) = .ok r' ∧
        r'.stage = .implementation_iteration ∧
        pendingCount r'.iterations = pendingCount r.iterations - ss.length := by
  induction ss with
  | nil => intro r hs _; exact ⟨r, rfl, hs, by simp⟩
  | cons s ss ih =>
    intro r hs hlt
    have hpos : 0 < pendingCount r.iterations := by
      simp only [List.length_cons] at hlt; omega
    have hpc := pendingCount_completeFirst r.iterations s hpos
    have hpos' : 0 < pendingCount (completeFirst r.iterations s) := by
      rw [hpc]; simp only [List.length_cons] at hlt; omega
    have hred : transition r (Event.iteration_completed s) =
        .ok { r with iterations := completeFirst r.iterations s } := by
      unfold transition
      simp only [hs]
      rw [if_pos hpos']
    obtain ⟨r', h1, h2, h3⟩ :=
      ih { r with iterations := completeFirst r.iterations s }
        (by simpa using hs)
        (by simp only [List.length_cons] at hlt; simpa [hpc] using by omega)
    refine ⟨r', ?_, h2, ?_⟩
    · simpa [runPure, hred] using h1
    · simp only [List.length_cons]
      simp only [hpc] at h3
      omega

/-- A record in `implementation_iteration` with exactly as many pending
iterations as completion events ends in `review`. -/
theorem runExhaust (ss : List String) :
    ∀ r : TaskRecord, r.stage = .implementation_iteration →
      0 < ss.length → ss.length = pendingCount r.iterations →
      ∃ r', runPure r (ss.map Event.iteration_completed) = .ok r' ∧
        r'.stage = .review := by
  induction ss with
  | nil => intro r _ h0 _; simp at h0
  | cons s ss ih =>
    intro r hs _ hlen
    have hpos : 0 < pendingCount r.iterations := by
      simp only [List.length_cons] at hlen; omega
    have hpc := pendingCount_completeFirst r.iterations s hpos
    by_cases h0 : ss.length = 0
    · have hss : ss = [] := List.length_eq_zero.mp h0
      have hzero : pendingCount (completeFirst r.iterations s) = 0 := by
        rw [hpc]; simp only [List.length_cons] at hlen; omega
      have hred : transition r (Event.iteration_completed s) =
          .ok { r with stage := .review,
                       iterations := completeFirst r.iterations s } := by
        unfold transition
        simp only [hs]
        rw [if_neg (by omega)]
      subst hss
      refine ⟨{ r with stage := .review, iterations := completeFirst r.iterations s },
        ?_, rfl⟩
      simp [runPure, hred]
    · have hpos' : 0 < pendingCount (completeFirst r.iterations s) := by
        rw [hpc]; simp only [List.length_cons] at hlen; omega
      have hred : transition r (Event.iteration_completed s) =
          .ok { r with iterations := completeFirst r.iterations s } := by
        unfold transition
        simp only [hs]
        rw [if_pos hpos']
      obtain ⟨r', h1, h2⟩ :=
        ih { r with iterations := completeFirst r.iterations s }
          (by simpa using hs)
          (by omega)
          (by simp only [List.length_cons] at hlen; simpa [hpc] using by omega)
      exact ⟨r', by simpa [runPure, hred] using h1, h2⟩

/-- One non-decompose step preserves "not in `decompose`, at most one
iteration record". -/
theorem transition_nodecompose_step (r r' : TaskRecord) (e : Event)
    (h1 : r.stage ≠ .decompose) (h2 : r.iterations.length ≤ 1)
    (he : e ≠ .plan_completed .decompose)
    (ht : transition r e = .ok r') :
    r'.stage ≠ .decompose ∧ r'.iterations.length ≤ 1 := by
  unfold transition at ht
  split at ht <;>
    first
    | (rw [← Except.ok.inj ht]; simp_all [completeFirst_length])
    | (split at ht <;>
        first
        | (rw [← Except.ok.inj ht]; simp_all [completeFirst_length])
        | (split at ht <;>
            first
            | (rw [← Except.ok.inj ht]; simp_all [completeFirst_length])
            | simp at ht)
        | simp at ht)
    | simp at ht

/-- Running events that never include the decompose hint from a
non-decompose, at-most-one-iteration record keeps both facts. -/
theorem runPure_nodecompose (es : List Event) :
    ∀ r r' : TaskRecord, r.stage ≠ .decompose → r.iterations.length ≤ 1 →
      Event.plan_completed PlanHint.decompose ∉ es →
      runPure r es = .ok r' →
      r'.stage ≠ .decompose ∧ r'.iterations.length ≤ 1 := by
  induction es with
  | nil =>
    intro r r' h1 h2 _ hrun
    simp only [runPure, Except.ok.injEq] at hrun
    subst hrun
    exact ⟨h1, h2⟩
  | cons e es ih =>
    intro r r' h1 h2 hne hrun
    simp only [runPure] at hrun
    cases ht : transition r e <;> rw [ht] at hrun
    · simp at hrun
    · rename_i r0
      have hestep : e ≠ Event.plan_completed PlanHint.decompose := by
        intro hc; exact hne (hc ▸ List.mem_cons_self _ _)
      have hstep := transition_nodecompose_step r r0 e h1 h2 hestep ht
      exact ih r0 r' hstep.1 hstep.2
        (fun hm => hne (List.mem_cons_of_mem _ hm)) hrun

/-- Successful `advance` when the presented version is the stored one
and the write succeeds. -/
theorem advance_ok_intro (st : Store) (id : String) (e : Event) (now : Nat)
    (r r0 : TaskRecord) (hget : Store.get st id = Option.some r)
    (ht : transition r e = .ok r0) :
    advance st id e r.version now true =
      (.ok { r0 with version := r.version + 1, updatedAt := now },
       Store.put st id { r0 with version := r.version + 1, updatedAt := now }) := by
  unfold advance
  simp only [hget, eq_self_iff_true, if_true, ht]

/-- A packaged successful `advance` step for chaining: the new record is
stored, its stage and review-cycle state come from the transition, and
its version is the old one plus one. -/
theorem advance_step (st : Store) (id : String) (e : Event) (now : Nat)
    (r r0 : TaskRecord) (hget : Store.get st id = Option.some r)
    (ht : transition r e = .ok r0) :
    ∃ r1 st1, advance st id e r.version now true = (.ok r1, st1) ∧
      Store.get st1 id = Option.some r1 ∧ r1.stage = r0.stage ∧
      r1.reviewCycle = r0.reviewCycle ∧ r1.version = r.version + 1 :=
  ⟨_, _, advance_ok_intro st id e now r r0 hget ht,
    Store.get_put st id _, rfl, rfl, rfl⟩

/-- The `review --review_decided(requires_fixes)--> review_fix` arm of
`transition` when the round guard passes. -/
theorem transition_requires_fixes (r : TaskRecord) (h1 : r.stage = .review)
    (hok : roundOk r.reviewCycle = true) :
    transition r (Event.review_decided .requires_fixes) =
      .ok { r with stage := .review_fix,
                   reviewCycle := { r.reviewCycle with lastDecision := .requires_fixes } } := by
  unfold transition
  simp only [h1]
  rw [if_pos hok]

/-- The `review --review_decided(requires_fixes)--> CycleExhausted` arm
of `transition` when the round guard fails. -/
theorem transition_requires_fixes_exhausted (r : TaskRecord)
    (h1 : r.stage = .review) (hok : roundOk r.reviewCycle = false) :
    transition r (Event.review_decided .requires_fixes) =
      .error .cycleExhausted := by
  unfold transition
  simp only [h1]
  rw [if_neg (by rw [hok]; simp)]

/-- The `review_fix --fixes_applied--> review` arm of `transition`. -/
theorem transition_fixes_applied (r : TaskRecord) (h1 : r.stage = .review_fix) :
    transition r .fixes_applied =
      .ok { r with stage := .review,
                   reviewCycle := { r.reviewCycle with
                                      round := r.reviewCycle.round + 1 } } := by
  unfold transition
  simp only [h1]

/-!  The claims. -/

/-- C1: for every stored task record and every (stage, event) pair, a
successful `advance` changes `stage` only along an edge of the §4.1
transition table, and a (stage, event) pair matching no row of the table
is rejected with an `InvalidTransition` error carrying that pair, the
store left unchanged. -/
theorem stage_follows_table (st : Store) (id : String) (r : TaskRecord)
    (e : Event) (now : Nat) (w : Bool)
    (hget : Store.get st id = Option.some r) :
    (∀ (r' : TaskRecord) (st' : Store),
        advance st id e r.version now w = (.ok r', st') →
        isTableEdge r.stage e r'.stage = true) ∧
    (matchesRow r.stage e = false →
        advance st id e r.version now w =
          (.error (.invalidTransition r.stage e), st)) := by
  constructor
  · intro r' st' hadv
    obtain ⟨rr, r0, hget', hv, ht, hw, hr', hst'⟩ :=
      advance_ok_elim st id e r.version now w r' st' hadv
    have hr : rr = r := by
      rw [hget] at hget'
      exact (Option.some.inj hget').symm
    subst hr
    subst hr'
    exact transition_ok_edge rr r0 e ht
  · intro hnorow
    exact advance_transition_error st id e r.version now w r
      (.invalidTransition r.stage e) hget rfl (transition_no_row r e hnorow)

/-- Witness for C1: a freshly created task (stage `task_created`) and a
`fixes_applied` event match no row, so `advance` rejects the pair with
`InvalidTransition` and leaves the store unchanged. -/
theorem stage_follows_table_witness :
    advance oneTaskStore "t" Event.fixes_applied
        (initialRecord "t" "b" 0).version 5 true =
      (.error (.invalidTransition Stage.task_created Event.fixes_applied),
       oneTaskStore) :=
  (stage_follows_table oneTaskStore "t" (initialRecord "t" "b" 0)
    Event.fixes_applied 5 true rfl).2 rfl

/-- C2: each successful `advance` increases the persisted `version` by
exactly 1 (the returned record is the stored one), and a call presenting
an `expectedVersion` different from the stored version is rejected with
`ConcurrentModification` and never mutates the store. -/
theorem version_guard (st : Store) (id : String) (r : TaskRecord) (e : Event)
    (ev now : Nat) (w : Bool) (hget : Store.get st id = Option.some r) :
    (∀ (r' : TaskRecord) (st' : Store),
        advance st id e ev now w = (.ok r', st') →
        r'.version = r.version + 1 ∧ Store.get st' id = Option.some r') ∧
    (ev ≠ r.version →
        advance st id e ev now w =
          (.error (.concurrentModification ev r.version), st)) := by
  constructor
  · intro r' st' hadv
    obtain ⟨rr, r0, hget', hv, ht, hw, hr', hst'⟩ :=
      advance_ok_elim st id e ev now w r' st' hadv
    have hr : rr = r := by
      rw [hget] at hget'
      exact (Option.some.inj hget').symm
    subst hr
    constructor
    · rw [hr']
    · rw [hst']
      exact Store.get_put st id r'
  · intro hne
    exact advance_stale st id e ev now w r hget hne

/-- Witness for C2: presenting version 7 against a stored version 1 is
rejected with `ConcurrentModification` and the store is unchanged. -/
theorem version_guard_witness :
    advance oneTaskStore "t" Event.plan_requested 7 5 true =
      (.error (.concurrentModification 7 1), oneTaskStore) :=
  (version_guard oneTaskStore "t" (initialRecord "t" "b" 0)
    Event.plan_requested 7 5 true rfl).2 (by decide)

/-- C3: starting from `create(task-1, feature-1)`, the scenario-A event
sequence `plan_requested`, `plan_completed(implement)` (auto-creating
exactly one iteration), `iteration_completed`, `review_decided(approved)`
succeeds at every step and ends in the terminal stage `done` with
`version = 5`. -/
theorem scenarioA_done_version_five :
    ((create [] "task-1" "feature-1" 0).1).map (fun r => (r.stage, r.version)) =
      .ok (.task_created, 1) ∧
    (drive scenarioAStore "task-1" 1
        [Event.plan_requested, Event.plan_completed .implement]).map
        (fun r => (r.stage, r.iterations.length)) =
      .ok (.implementation_iteration, 1) ∧
    (drive scenarioAStore "task-1" 1 scenarioAEvents).map
        (fun r => (r.stage, r.version)) =
      .ok (.done, 5) := by
  refine ⟨rfl, rfl, rfl⟩

/-- C4: a task in `implementation_iteration` with N ≥ 1 pending planned
iterations stays in `implementation_iteration` after each of the first
N−1 `iteration_completed` events, reaches `review` after exactly N of
them, and the (N+1)-th `iteration_completed` event is rejected as
`InvalidTransition`. -/
theorem iteration_exhaustion (N : Nat) (hN : 1 ≤ N) (r : TaskRecord)
    (hs : r.stage = .implementation_iteration)
    (hp : pendingCount r.iterations = N) :
    (∀ ss : List String, ss.length < N →
        ∃ r', runPure r (ss.map Event.iteration_completed) = .ok r' ∧
          r'.stage = .implementation_iteration) ∧
    (∀ ss : List String, ss.length = N →
        ∃ r', runPure r (ss.map Event.iteration_completed) = .ok r' ∧
          r'.stage = .review) ∧
    (∀ (ss : List String) (s : String), ss.length = N →
        runPure r (ss.map Event.iteration_completed ++
            [Event.iteration_completed s]) =
          .error (.invalidTransition .review (Event.iteration_completed s))) := by
  refine ⟨?_, ?_, ?_⟩
  · intro ss hlt
    obtain ⟨r', h1, h2, _⟩ := runPending ss r hs (by omega)
    exact ⟨r', h1, h2⟩
  · intro ss hlen
    exact runExhaust ss r hs (by omega) (by omega)
  · intro ss s hlen
    obtain ⟨r', h1, h2⟩ := runExhaust ss r hs (by omega) (by omega)
    rw [runPure_append, h1]
    simp [runPure, transition, h2]

/-- Witness for C4: with one planned iteration, the second
`iteration_completed` event is rejected as `InvalidTransition` in
`review`. -/
theorem iteration_exhaustion_witness :
    runPure implOneRecord
        [Event.iteration_completed "a", Event.iteration_completed "b"] =
      .error (.invalidTransition .review (Event.iteration_completed "b")) :=
  (iteration_exhaustion 1 (by decide) implOneRecord rfl (by decide)).2.2
    ["a"] "b" rfl

/-- C5: with `maxRounds = 2`, for a stored task in `review` with
`round = 0`, two successive `review_decided(requires_fixes)` decisions
(each followed by `fixes_applied`) succeed and each enters `review_fix`,
while a third `review_decided(requires_fixes)` returns `CycleExhausted`
and leaves the stored record (still in `review`) unchanged. -/
theorem cycle_bound (st : Store) (id : String) (r : TaskRecord) (now : Nat)
    (hget : Store.get st id = Option.some r)
    (h1 : r.stage = .review) (h2 : r.reviewCycle.round = 0)
    (h3 : r.reviewCycle.maxRounds = Option.some 2) :
    ∃ (r1 r2 r3 r4 : TaskRecord) (st1 st2 st3 st4 : Store),
      advance st id (Event.review_decided .requires_fixes) r.version now true =
        (.ok r1, st1) ∧ r1.stage = .review_fix ∧
      advance st1 id Event.fixes_applied r1.version now true =
        (.ok r2, st2) ∧ r2.stage = .review ∧
      advance st2 id (Event.review_decided .requires_fixes) r2.version now true =
        (.ok r3, st3) ∧ r3.stage = .review_fix ∧
      advance st3 id Event.fixes_applied r3.version now true =
        (.ok r4, st4) ∧ r4.stage = .review ∧
      advance st4 id (Event.review_decided .requires_fixes) r4.version now true =
        (.error .cycleExhausted, st4) ∧
      Store.get st4 id = Option.some r4 := by
  have hok0 : roundOk r.reviewCycle = true := by
    simp [roundOk, h3, h2]
  obtain ⟨r1, st1, ha1, hg1, hs1', hc1, hv1⟩ :=
    advance_step st id (Event.review_decided .requires_fixes) now r _ hget
      (transition_requires_fixes r h1 hok0)
  have hs1 : r1.stage = .review_fix := hs1'
  have hc1' : r1.reviewCycle =
      { r.reviewCycle with lastDecision := .requires_fixes } := hc1
  obtain ⟨r2, st2, ha2, hg2, hs2', hc2, hv2⟩ :=
    advance_step st1 id Event.fixes_applied now r1 _ hg1
      (transition_fixes_applied r1 hs1)
  have hs2 : r2.stage = .review := hs2'
  have hc2' : r2.reviewCycle =
      { r1.reviewCycle with round := r1.reviewCycle.round + 1 } := hc2
  have hround2 : r2.reviewCycle.round = 1 := by
    rw [hc2']
    show r1.reviewCycle.round + 1 = 1
    rw [hc1']
    show r.reviewCycle.round + 1 = 1
    rw [h2]
  have hmax2 : r2.reviewCycle.maxRounds = Option.some 2 := by
    rw [hc2']
    show r1.reviewCycle.maxRounds = Option.some 2
    rw [hc1']
    exact h3
  have hok2 : roundOk r2.reviewCycle = true := by
    simp [roundOk, hmax2, hround2]
  obtain ⟨r3, st3, ha3, hg3, hs3', hc3, hv3⟩ :=
    advance_step st2 id (Event.review_decided .requires_fixes) now r2 _ hg2
      (transition_requires_fixes r2 hs2 hok2)
  have hs3 : r3.stage = .review_fix := hs3'
  have hc3' : r3.reviewCycle =
      { r2.reviewCycle with lastDecision := .requires_fixes } := hc3
  obtain ⟨r4, st4, ha4, hg4, hs4', hc4, hv4⟩ :=
    advance_step st3 id Event.fixes_applied now r3 _ hg3
      (transition_fixes_applied r3 hs3)
  have hs4 : r4.stage = .review := hs4'
  have hc4' : r4.reviewCycle =
      { r3.reviewCycle with round := r3.reviewCycle.round + 1 } := hc4
  have hround4 : r4.reviewCycle.round = 2 := by
    rw [hc4']
    show r3.reviewCycle.round + 1 = 2
    rw [hc3']
    show r2.reviewCycle.round + 1 = 2
    rw [hround2]
  have hmax4 : r4.reviewCycle.maxRounds = Option.some 2 := by
    rw [hc4']
    show r3.reviewCycle.maxRounds = Option.some 2
    rw [hc3']
    show r2.reviewCycle.maxRounds = Option.some 2
    exact hmax2
  have hok4 : roundOk r4.reviewCycle = false := by
    simp [roundOk, hmax4, hround4]
  have ha5 := advance_transition_error st4 id
    (Event.review_decided .requires_fixes) r4.version now true r4
    .cycleExhausted hg4 rfl
    (transition_requires_fixes_exhausted r4 hs4 hok4)
  exact ⟨r1, r2, r3, r4, st1, st2, st3, st4,
    ha1, hs1, ha2, hs2, ha3, hs3, ha4, hs4, ha5, hg4⟩

/-- Witness for C5: the concrete `reviewStore` (one task in `review`,
round 0, `maxRounds = 2`) satisfies all of C5's hypotheses. -/
theorem cycle_bound_witness :
    ∃ (r1 r2 r3 r4 : TaskRecord) (st1 st2 st3 st4 : Store),
      advance reviewStore "t" (Event.review_decided .requires_fixes)
          reviewRecord.version 9 true = (.ok r1, st1) ∧ r1.stage = .review_fix ∧
      advance st1 "t" Event.fixes_applied r1.version 9 true =
        (.ok r2, st2) ∧ r2.stage = .review ∧
      advance st2 "t" (Event.review_decided .requires_fixes) r2.version 9 true =
        (.ok r3, st3) ∧ r3.stage = .review_fix ∧
      advance st3 "t" Event.fixes_applied r3.version 9 true =
        (.ok r4, st4) ∧ r4.stage = .review ∧
      advance st4 "t" (Event.review_decided .requires_fixes) r4.version 9 true =
        (.error .cycleExhausted, st4) ∧
      Store.get st4 "t" = Option.some r4 :=
  cycle_bound reviewStore "t" reviewRecord 9 rfl rfl rfl rfl

/-- C6: the `review → review_fix` transition on
`review_decided(requires_fixes)` leaves `reviewCycle.round` unchanged,
and the `review_fix → review` transition on `fixes_applied` increments
`reviewCycle.round` by exactly 1. -/
theorem review_round_bookkeeping (r : TaskRecord) :
    (∀ r' : TaskRecord, r.stage = .review →
        transition r (Event.review_decided .requires_fixes) = .ok r' →
        r'.stage = .review_fix ∧
        r'.reviewCycle.round = r.reviewCycle.round) ∧
    (∀ r' : TaskRecord, r.stage = .review_fix →
        transition r .fixes_applied = .ok r' →
        r'.stage = .review ∧
        r'.reviewCycle.round = r.reviewCycle.round + 1) := by
  constructor
  · intro r' h1 ht
    unfold transition at ht
    simp only [h1] at ht
    cases hok : roundOk r.reviewCycle
    · rw [if_neg (by rw [hok]; simp)] at ht
      simp at ht
    · rw [if_pos hok] at ht
      rw [← Except.ok.inj ht]
      exact ⟨rfl, rfl⟩
  · intro r' h1 ht
    unfold transition at ht
    simp only [h1] at ht
    rw [← Except.ok.inj ht]
    exact ⟨rfl, rfl⟩

/-- Witness for C6: the concrete one-step results from `reviewRecord`
keep the round on `requires_fixes` and bump it on `fixes_applied`. -/
theorem review_round_bookkeeping_witness :
    (reviewFixRecord.stage = Stage.review_fix ∧
      reviewFixRecord.reviewCycle.round = reviewRecord.reviewCycle.round) ∧
    (reviewBackRecord.stage = Stage.review ∧
      reviewBackRecord.reviewCycle.round =
        reviewFixRecord.reviewCycle.round + 1) :=
  ⟨(review_round_bookkeeping reviewRecord).1 reviewFixRecord rfl rfl,
   (review_round_bookkeeping reviewFixRecord).2 reviewBackRecord rfl rfl⟩

/-- C7: every `advance` is atomic — either the whole new record (with
refreshed `updatedAt`) is persisted under the task id and returned, or
an error is returned and the store is exactly as it was; in particular a
failed store write (`writeOk = false`) always returns an error and
leaves the prior record untouched. -/
theorem advance_atomic (st : Store) (id : String) (e : Event) (ev now : Nat)
    (w : Bool) :
    ((∃ r', advance st id e ev now w = (.ok r', Store.put st id r') ∧
        r'.updatedAt = now) ∨
      (∃ err, advance st id e ev now w = (.error err, st))) ∧
    (w = false → ∃ err, advance st id e ev now w = (.error err, st)) := by
  have hsplit :
      (∃ r', advance st id e ev now w = (.ok r', Store.put st id r') ∧
        r'.updatedAt = now) ∨
      (∃ err, advance st id e ev now w = (.error err, st)) := by
    rcases hres : advance st id e ev now w with ⟨res, st'⟩
    cases res with
    | ok r' =>
      obtain ⟨rr, r0, _, _, _, _, hr', hst'⟩ :=
        advance_ok_elim st id e ev now w r' st' hres
      left
      refine ⟨r', ?_, ?_⟩
      · rw [hst']
      · rw [hr']
    | error err =>
      right
      refine ⟨err, ?_⟩
      have hfst : (advance st id e ev now w).1 = .error err := by rw [hres]
      have hsnd := advance_error_store st id e ev now w err hfst
      rw [hres] at hsnd
      simp only [] at hsnd
      rw [hsnd]
  refine ⟨hsplit, ?_⟩
  intro hw
  subst hw
  rcases hsplit with ⟨r', hadv, _⟩ | herr
  · exfalso
    obtain ⟨_, _, _, _, _, hw', _, _⟩ :=
      advance_ok_elim st id e ev now false r' (Store.put st id r') hadv
    exact Bool.noConfusion hw'
  · exact herr

/-- Witness for C7: a failed write on an otherwise valid `advance`
returns an error and leaves the store unchanged. -/
theorem advance_atomic_witness :
    ∃ err, advance oneTaskStore "t" Event.plan_requested 1 5 false =
      (.error err, oneTaskStore) :=
  (advance_atomic oneTaskStore "t" Event.plan_requested 1 5 false).2 rfl

/-- C8 counterexample: a task that never took the decompose path (the
trace contains no `plan_completed(decompose)`) still reaches a record
whose `iterations` list is non-empty — the `implement` path auto-creates
exactly one iteration — refuting "`iterations` is non-empty only if the
task took the decompose path". -/
theorem iterations_decompose_only_cex :
    (runPure (initialRecord "t" "b" 0) noDecomposeTrace).map
        (fun r => (r.iterations.isEmpty, r.stage)) =
      .ok (false, .implementation_iteration) ∧
    Event.plan_completed PlanHint.decompose ∉ noDecomposeTrace := by
  exact ⟨rfl, by decide⟩

/-- C8 (amended): in every record reachable from creation by a trace
that never contains `plan_completed(decompose)`, the `iterations` list
has at most one element — so more than one IterationRecord requires the
decompose path. -/
theorem iterations_at_most_one_without_decompose (id branch : String)
    (t : Nat) (es : List Event) (r : TaskRecord)
    (hrun : runPure (initialRecord id branch t) es = .ok r)
    (hnd : Event.plan_completed PlanHint.decompose ∉ es) :
    r.iterations.length ≤ 1 :=
  (runPure_nodecompose es (initialRecord id branch t) r
    (by simp [initialRecord]) (by simp [initialRecord]) hnd hrun).2

/-- Witness for C8 (amended): the record reached by the implement-path
trace has exactly one iteration record. -/
theorem iterations_at_most_one_without_decompose_witness :
    implAfterPlanRecord.iterations.length ≤ 1 :=
  iterations_at_most_one_without_decompose "t" "b" 0 noDecomposeTrace
    implAfterPlanRecord rfl (by decide)

/-- C9: the review-comment search script terminates with exit status 0
for every input directory layout, including when grep selects no
`//Review:` line at all (grep's status 1 is not propagated; the script
ends with an unconditional `exit 0`). -/
theorem find_review_comments_exits_zero (repo : RepoLayout) :
    (findReviewCommentsRun repo).2 = 0 ∧
    (grepExitCode repo = 1 → (findReviewCommentsRun repo).2 = 0) :=
  ⟨rfl, fun _ => rfl⟩

/-- Witness for C9: on a layout where grep finds nothing (its own status
is 1) the script still exits 0. -/
theorem find_review_comments_exits_zero_witness :
    (findReviewCommentsRun emptyRepoLayout).2 = 0 :=
  (find_review_comments_exits_zero emptyRepoLayout).2 (by decide)

/-- C10: when the resolved env-file path does not exist, the MCP test
client's `main` logs an error and exits the process with code 1, and its
action trace contains no server spawn and no client connect. -/
theorem mcp_test_missing_env_stops (w : ClientWorld)
    (h : w.existingPaths.contains (resolveEnvPath w) = false) :
    mcpTestMain w =
      [ClientAction.logInfo "Starting MCP Client Test",
       ClientAction.logInfo ("Looking for env file: " ++ envPathArg w),
       ClientAction.logError ("Error: .env file not found at: " ++
         resolveEnvPath w),
       ClientAction.exitProcess 1] ∧
    ∀ a ∈ mcpTestMain w,
      (∀ (c : String) (args : List String), a ≠ ClientAction.spawnServer c args) ∧
      a ≠ ClientAction.connectClient := by
  have hm : mcpTestMain w =
      [ClientAction.logInfo "Starting MCP Client Test",
       ClientAction.logInfo ("Looking for env file: " ++ envPathArg w),
       ClientAction.logError ("Error: .env file not found at: " ++
         resolveEnvPath w),
       ClientAction.exitProcess 1] := by
    simp only [mcpTestMain]
    rw [h]
    simp
  refine ⟨hm, ?_⟩
  rw [hm]
  intro a ha
  simp only [List.mem_cons, List.not_mem_nil, or_false] at ha
  rcases ha with rfl | rfl | rfl | rfl <;>
    exact ⟨fun c args => by simp, by simp⟩

/-- Witness for C10: a world whose env file is missing produces exactly
the log-error-and-exit trace. -/
theorem mcp_test_missing_env_stops_witness :
    mcpTestMain missingEnvWorld =
      [ClientAction.logInfo "Starting MCP Client Test",
       ClientAction.logInfo ("Looking for env file: " ++
         envPathArg missingEnvWorld),
       ClientAction.logError ("Error: .env file not found at: " ++
         resolveEnvPath missingEnvWorld),
       ClientAction.exitProcess 1] :=
  (mcp_test_missing_env_stops missingEnvWorld (by decide)).1

end TaskFlow
